import Mathlib

/-!
# Verification of the Monte Carlo integration module (task_2.py)

Shallow embedding of the estimator in `task_2.py`.  Real numbers of the
source are modelled as exact rationals (`ℚ`).  Python's process-wide
`random` module is modelled as an explicit state of an abstract seeded
pseudo-random stream: `random.seed(s)` replaces the global state by a
state determined by `s` alone, and every `random.uniform(a, b)` call
advances the global state by one unit draw `u` and returns
`a + (b - a) * u`, exactly as CPython's `Random.uniform` does.
-/

/-- An abstract deterministic pseudo-random generator over states `σ`:
`seed s` is the state Python's `random.seed(s)` installs, and `next st`
produces one unit draw (the value of `random.random()`) together with the
advanced state. -/
structure RandomStream (σ : Type) where
  seed : Int → σ
  next : σ → ℚ × σ

/-- `random.uniform(a, b)` from CPython: `a + (b - a) * random.random()`,
consuming exactly one unit draw from the global state. -/
def uniformDraw {σ : Type} (R : RandomStream σ) (a b : ℚ) (st : σ) : ℚ × σ :=
  let u := R.next st
  (a + (b - a) * u.1, u.2)

/-- The sampling loop of `estimate_integral_monte_carlo`
(`for _ in range(samples_count)` at task_2.py lines 69–74): draw
`x_random`, then `y_random`, and bump the accumulator when
`y_random <= function(x_random)`. -/
def monteCarloLoop {σ : Type} (R : RandomStream σ) (function : ℚ → ℚ)
    (lower_bound upper_bound max_function_value : ℚ) :
    Nat → Nat → σ → Nat × σ
  | 0, points_under_curve, st => (points_under_curve, st)
  | n + 1, points_under_curve, st =>
    let xd := uniformDraw R lower_bound upper_bound st
    let yd := uniformDraw R 0 max_function_value xd.2
    monteCarloLoop R function lower_bound upper_bound max_function_value n
      (if yd.1 ≤ function xd.1 then points_under_curve + 1 else points_under_curve) yd.2

/-- `estimate_integral_monte_carlo` (task_2.py lines 29–80), as a function
of the incoming global random state.  Python's `raise ValueError` is
modelled as `Except.error`; the returned pair carries the global random
state left behind by the call. -/
def estimate_integral_monte_carlo {σ : Type} (R : RandomStream σ)
    (function : ℚ → ℚ) (lower_bound upper_bound : ℚ)
    (samples_count : Int) (random_seed : Int) (st : σ) :
    Except String ℚ × σ :=
  if samples_count ≤ 0 then
    (Except.error "samples_count має бути додатним цілим числом.", st)
  else if upper_bound ≤ lower_bound then
    (Except.error "upper_bound має бути більшим за lower_bound.", st)
  else
    let st0 := R.seed random_seed
    let max_function_value := max (function lower_bound) (function upper_bound)
    let rectangle_area := (upper_bound - lower_bound) * max_function_value
    let r := monteCarloLoop R function lower_bound upper_bound max_function_value
      samples_count.toNat 0 st0
    let under_curve_ratio : ℚ := (r.1 : ℚ) / (samples_count : ℚ)
    (Except.ok (under_curve_ratio * rectangle_area), r.2)

/-- `integrand_function` (task_2.py line 24): f(x) = x². -/
def integrand_function (x_value : ℚ) : ℚ := x_value ^ 2

/-- `analytic_integral_x_squared` (task_2.py lines 83–90). -/
def analytic_integral_x_squared (lower_bound upper_bound : ℚ) : ℚ :=
  (upper_bound ^ 3 - lower_bound ^ 3) / 3

/-- The state reached from `st` after `n` unit draws. -/
def advanceState {σ : Type} (R : RandomStream σ) (st : σ) : Nat → σ
  | 0 => st
  | n + 1 => advanceState R (R.next st).2 n

/-- The `n`-th unit draw produced from state `st` (0-indexed). -/
def nthUnit {σ : Type} (R : RandomStream σ) (st : σ) (n : Nat) : ℚ :=
  (R.next (advanceState R st n)).1

/-- The x-coordinate of sample `i` of a call seeded with `s`: it is drawn
first, consuming unit draw number `2*i`. -/
def xSample {σ : Type} (R : RandomStream σ) (lower_bound upper_bound : ℚ)
    (s : Int) (i : Nat) : ℚ :=
  lower_bound + (upper_bound - lower_bound) * nthUnit R (R.seed s) (2 * i)

/-- The y-coordinate of sample `i` of a call seeded with `s`: it is drawn
second, consuming unit draw number `2*i + 1`. -/
def ySample {σ : Type} (R : RandomStream σ) (max_function_value : ℚ)
    (s : Int) (i : Nat) : ℚ :=
  0 + (max_function_value - 0) * nthUnit R (R.seed s) (2 * i + 1)

/-- Number of the first `n` samples classified under the curve, written
directly from the per-index sample coordinates (independently of the
accumulator loop). -/
def underCurveCount {σ : Type} (R : RandomStream σ) (function : ℚ → ℚ)
    (lower_bound upper_bound max_function_value : ℚ) (s : Int) (n : Nat) : Nat :=
  (List.range n).countP (fun i =>
    decide (ySample R max_function_value s i ≤
      function (xSample R lower_bound upper_bound s i)))

/-- Ghost trace of the sampling loop: the list of `(x, y)` pairs the loop
draws, in order, together with the final random state. -/
def sampleTrace {σ : Type} (R : RandomStream σ)
    (lower_bound upper_bound max_function_value : ℚ) :
    Nat → σ → List (ℚ × ℚ) × σ
  | 0, st => ([], st)
  | n + 1, st =>
    let xd := uniformDraw R lower_bound upper_bound st
    let yd := uniformDraw R 0 max_function_value xd.2
    let rest := sampleTrace R lower_bound upper_bound max_function_value n yd.2
    ((xd.1, yd.1) :: rest.1, rest.2)

/-- A concrete stream for witnesses: state is (seed, position) and the
unit draws come from an explicit table `g`. -/
def idxStream (g : Int → Nat → ℚ) : RandomStream (Int × Nat) where
  seed s := (s, 0)
  next st := (g st.1 st.2, (st.1, st.2 + 1))

/-- A fully concrete stream whose every unit draw is 1/2, for evaluating
the estimator on closed inputs. -/
def constHalf : RandomStream (Int × Nat) := idxStream fun _ _ => 1 / 2

/-- `try_quad_integration` (task_2.py lines 93–111).  Whether
`import scipy.integrate` succeeds is an environment fact, modelled by the
Boolean `scipy_available`; the external `spi.quad` routine is modelled by
the oracle `quad`.  On import failure the function returns `none`
(Python's `None`), otherwise the pair produced by `quad`. -/
def try_quad_integration (scipy_available : Bool)
    (quad : (ℚ → ℚ) → ℚ → ℚ → ℚ × ℚ) (function : ℚ → ℚ)
    (lower_bound upper_bound : ℚ) : Option (ℚ × ℚ) :=
  if scipy_available then
    let r := quad function lower_bound upper_bound
    some (r.1, r.2)
  else
    none

/-- Outcome of the quadrature section of `main` (task_2.py lines
142–150): either the "SciPy не встановлено" notice followed by a normal
return, or the report of the quad value, its error estimate, and the
absolute difference from the Monte Carlo estimate. -/
inductive MainQuadReport where
  | scipyMissing : MainQuadReport
  | quadChecked : ℚ → ℚ → ℚ → MainQuadReport
deriving DecidableEq

/-- The quadrature section of `main` (task_2.py lines 142–150), as a
total function of the import availability: it pattern-matches the result
of `try_quad_integration` and never raises. -/
def main_quad_section (scipy_available : Bool)
    (quad : (ℚ → ℚ) → ℚ → ℚ → ℚ × ℚ) (function : ℚ → ℚ)
    (lower_bound upper_bound monte_carlo_result : ℚ) : MainQuadReport :=
  match try_quad_integration scipy_available quad function lower_bound upper_bound with
  | none => MainQuadReport.scipyMissing
  | some r => MainQuadReport.quadChecked r.1 r.2 |monte_carlo_result - r.1|

section LoopLemmas

variable {σ : Type} (R : RandomStream σ)

theorem advanceState_add (st : σ) (m n : Nat) :
    advanceState R st (m + n) = advanceState R (advanceState R st m) n := by
  induction m generalizing st with
  | zero =>
    rw [Nat.zero_add]
    rfl
  | succ m ih =>
    have h : m + 1 + n = (m + n) + 1 := by omega
    rw [h]
    exact ih (R.next st).2

theorem nthUnit_advanceState (st : σ) (m k : Nat) :
    nthUnit R (advanceState R st m) k = nthUnit R st (m + k) := by
  unfold nthUnit
  rw [advanceState_add]

/-- The loop run for `n` iterations from state `st` adds, to the incoming
accumulator, the number of indices `i < n` whose pair — drawn at unit
positions `2*i` (x first) and `2*i + 1` (y second) past `st` — satisfies
`y ≤ f x`, and leaves the state advanced by exactly `2*n` draws. -/
theorem monteCarloLoop_spec (f : ℚ → ℚ) (lo hi hmax : ℚ) (n c : Nat) (st : σ) :
    monteCarloLoop R f lo hi hmax n c st =
      (c + (List.range n).countP (fun i =>
          decide (0 + (hmax - 0) * nthUnit R st (2 * i + 1) ≤
            f (lo + (hi - lo) * nthUnit R st (2 * i)))),
        advanceState R st (2 * n)) := by
  induction n generalizing c st with
  | zero => simp [monteCarloLoop, advanceState]
  | succ n ih =>
    rw [monteCarloLoop]
    rw [ih]
    have hx : (uniformDraw R lo hi st).1 = lo + (hi - lo) * nthUnit R st 0 := by
      simp [uniformDraw, nthUnit, advanceState]
    have hy : (uniformDraw R 0 hmax (uniformDraw R lo hi st).2).1 =
        0 + (hmax - 0) * nthUnit R st 1 := by
      simp [uniformDraw, nthUnit, advanceState]
    have hst2 : (uniformDraw R 0 hmax (uniformDraw R lo hi st).2).2 =
        advanceState R st 2 := by
      simp [uniformDraw, advanceState]
    rw [hx, hy, hst2]
    have hcount : (List.range (n + 1)).countP (fun i =>
          decide (0 + (hmax - 0) * nthUnit R st (2 * i + 1) ≤
            f (lo + (hi - lo) * nthUnit R st (2 * i)))) =
        (if 0 + (hmax - 0) * nthUnit R st 1 ≤ f (lo + (hi - lo) * nthUnit R st 0)
          then 1 else 0) +
        (List.range n).countP (fun i =>
          decide (0 + (hmax - 0) * nthUnit R (advanceState R st 2) (2 * i + 1) ≤
            f (lo + (hi - lo) * nthUnit R (advanceState R st 2) (2 * i)))) := by
      rw [List.range_succ_eq_map, List.countP_cons, List.countP_map]
      have hpred : ((fun i =>
            decide (0 + (hmax - 0) * nthUnit R st (2 * i + 1) ≤
              f (lo + (hi - lo) * nthUnit R st (2 * i)))) ∘ (· + 1)) =
          (fun i =>
            decide (0 + (hmax - 0) * nthUnit R (advanceState R st 2) (2 * i + 1) ≤
              f (lo + (hi - lo) * nthUnit R (advanceState R st 2) (2 * i)))) := by
        funext i
        simp only [Function.comp, nthUnit_advanceState]
        have h2 : 2 * (i + 1) + 1 = 2 + (2 * i + 1) := by omega
        have h1 : 2 * (i + 1) = 2 + 2 * i := by omega
        rw [h2, h1]
      rw [hpred]
      simp only [Nat.mul_zero, Nat.zero_add, decide_eq_true_eq]
      omega
    rw [hcount]
    have hstate : advanceState R (advanceState R st 2) (2 * n) =
        advanceState R st (2 * (n + 1)) := by
      rw [← advanceState_add]
      congr 1
      omega
    rw [hstate]
    by_cases hc : 0 + (hmax - 0) * nthUnit R st 1 ≤ f (lo + (hi - lo) * nthUnit R st 0)
    · simp only [if_pos hc]
      congr 1
      omega
    · simp only [if_neg hc, Nat.zero_add]

/-- The ghost trace lists exactly the per-index samples, in order, and
ends in the state advanced by `2*n` draws. -/
theorem sampleTrace_spec (lo hi hmax : ℚ) (n : Nat) (st : σ) :
    sampleTrace R lo hi hmax n st =
      ((List.range n).map (fun i =>
          (lo + (hi - lo) * nthUnit R st (2 * i),
           0 + (hmax - 0) * nthUnit R st (2 * i + 1))),
        advanceState R st (2 * n)) := by
  induction n generalizing st with
  | zero => simp [sampleTrace, advanceState]
  | succ n ih =>
    rw [sampleTrace]
    rw [ih]
    have hx : (uniformDraw R lo hi st).1 = lo + (hi - lo) * nthUnit R st 0 := by
      simp [uniformDraw, nthUnit, advanceState]
    have hy : (uniformDraw R 0 hmax (uniformDraw R lo hi st).2).1 =
        0 + (hmax - 0) * nthUnit R st 1 := by
      simp [uniformDraw, nthUnit, advanceState]
    have hst2 : (uniformDraw R 0 hmax (uniformDraw R lo hi st).2).2 =
        advanceState R st 2 := by
      simp [uniformDraw, advanceState]
    rw [hx, hy, hst2]
    have hlist : (List.range (n + 1)).map (fun i =>
          (lo + (hi - lo) * nthUnit R st (2 * i),
           0 + (hmax - 0) * nthUnit R st (2 * i + 1))) =
        (lo + (hi - lo) * nthUnit R st 0, 0 + (hmax - 0) * nthUnit R st 1) ::
        (List.range n).map (fun i =>
          (lo + (hi - lo) * nthUnit R (advanceState R st 2) (2 * i),
           0 + (hmax - 0) * nthUnit R (advanceState R st 2) (2 * i + 1))) := by
      rw [List.range_succ_eq_map, List.map_cons, List.map_map]
      have hfun : ((fun i =>
            (lo + (hi - lo) * nthUnit R st (2 * i),
             0 + (hmax - 0) * nthUnit R st (2 * i + 1))) ∘ (· + 1)) =
          (fun i =>
            (lo + (hi - lo) * nthUnit R (advanceState R st 2) (2 * i),
             0 + (hmax - 0) * nthUnit R (advanceState R st 2) (2 * i + 1))) := by
        funext i
        simp only [Function.comp, nthUnit_advanceState]
        have h2 : 2 * (i + 1) + 1 = 2 + (2 * i + 1) := by omega
        have h1 : 2 * (i + 1) = 2 + 2 * i := by omega
        rw [h2, h1]
      rw [hfun]
    rw [hlist]
    have hstate : advanceState R (advanceState R st 2) (2 * n) =
        advanceState R st (2 * (n + 1)) := by
      rw [← advanceState_add]
      congr 1
      omega
    rw [hstate]

end LoopLemmas

/-- Shared description of a successful call: on valid arguments, the call
returns the under-curve ratio times the rectangle area and leaves behind
the seeded state advanced by `2 * N` draws. -/
theorem estimate_ok_eq {σ : Type} (R : RandomStream σ) (f : ℚ → ℚ) (lo hi : ℚ)
    (N s : Int) (st : σ) (hN : 0 < N) (hlt : lo < hi) :
    estimate_integral_monte_carlo R f lo hi N s st =
      (Except.ok ((underCurveCount R f lo hi (max (f lo) (f hi)) s N.toNat : ℚ) / (N : ℚ) *
        ((hi - lo) * max (f lo) (f hi))),
       advanceState R (R.seed s) (2 * N.toNat)) := by
  have hN' : ¬ N ≤ 0 := by omega
  have hhi : ¬ hi ≤ lo := not_le.mpr hlt
  unfold estimate_integral_monte_carlo
  rw [if_neg hN', if_neg hhi]
  simp only [monteCarloLoop_spec, Nat.zero_add]
  unfold underCurveCount xSample ySample
  rfl

/-- C1: on every valid call (N > 0, upper > lower) the returned estimate
is (under-curve count) / N times width × height, where
width = upper − lower and height = max(f(lower), f(upper)) comes from the
two endpoint evaluations only. -/
theorem estimate_is_ratio_times_width_height {σ : Type} (R : RandomStream σ)
    (f : ℚ → ℚ) (lo hi : ℚ) (N s : Int) (st : σ) (hN : 0 < N) (hlt : lo < hi) :
    (estimate_integral_monte_carlo R f lo hi N s st).1 =
      Except.ok ((underCurveCount R f lo hi (max (f lo) (f hi)) s N.toNat : ℚ) / (N : ℚ) *
        ((hi - lo) * max (f lo) (f hi))) := by
  rw [estimate_ok_eq R f lo hi N s st hN hlt]

/-- Witness for C1 at f(x) = x², [0, 2], N = 2, seed 7. -/
theorem estimate_is_ratio_times_width_height_app :
    (estimate_integral_monte_carlo constHalf integrand_function 0 2 2 7
        ((0 : Int), (0 : Nat))).1 =
      Except.ok ((underCurveCount constHalf integrand_function 0 2
          (max (integrand_function 0) (integrand_function 2)) 7 (Int.toNat 2) : ℚ) / (2 : ℚ) *
        ((2 - 0) * max (integrand_function 0) (integrand_function 2))) :=
  estimate_is_ratio_times_width_height constHalf integrand_function 0 2 2 7
    ((0 : Int), (0 : Nat)) (by norm_num) (by norm_num)

/-- C2: the call fails (returns no value) exactly when samples_count ≤ 0
or upper ≤ lower, and on such a failure the global random state is
returned untouched: nothing is seeded, no draw is consumed. -/
theorem validation_rejects_iff_and_preserves_state {σ : Type} (R : RandomStream σ)
    (f : ℚ → ℚ) (lo hi : ℚ) (N s : Int) (st : σ) :
    ((∃ msg, (estimate_integral_monte_carlo R f lo hi N s st).1 = Except.error msg) ↔
      (N ≤ 0 ∨ hi ≤ lo)) ∧
    ((N ≤ 0 ∨ hi ≤ lo) → (estimate_integral_monte_carlo R f lo hi N s st).2 = st) := by
  by_cases hN : N ≤ 0
  · constructor
    · simp [estimate_integral_monte_carlo, hN]
    · intro _
      simp [estimate_integral_monte_carlo, hN]
  · by_cases hhi : hi ≤ lo
    · constructor
      · simp [estimate_integral_monte_carlo, hN, hhi]
      · intro _
        simp [estimate_integral_monte_carlo, hN, hhi]
    · constructor
      · simp [estimate_integral_monte_carlo, hN, hhi]
      · intro h
        rcases h with h | h
        · exact absurd h hN
        · exact absurd h hhi

/-- Witness for C2 at samples_count = −5: the call fails and hands back
the incoming global state (3, 4) untouched. -/
theorem validation_rejects_iff_and_preserves_state_app :
    (estimate_integral_monte_carlo constHalf integrand_function 0 2 (-5) 7
        ((3 : Int), (4 : Nat))).2 = ((3 : Int), (4 : Nat)) :=
  (validation_rejects_iff_and_preserves_state constHalf integrand_function 0 2 (-5) 7
    ((3 : Int), (4 : Nat))).2 (Or.inl (by norm_num))

/-- C5: with fixed (f, lower, upper, samples_count, seed) satisfying the
preconditions, two calls started from arbitrary (and arbitrarily
different) global random states return the identical estimate. -/
theorem estimate_deterministic {σ : Type} (R : RandomStream σ) (f : ℚ → ℚ)
    (lo hi : ℚ) (N s : Int) (st st' : σ) (hN : 0 < N) (hlt : lo < hi) :
    (estimate_integral_monte_carlo R f lo hi N s st).1 =
      (estimate_integral_monte_carlo R f lo hi N s st').1 := by
  rw [estimate_ok_eq R f lo hi N s st hN hlt,
    estimate_ok_eq R f lo hi N s st' hN hlt]

/-- C3: for any seed and any N > 0 the sampling loop draws exactly N
pairs; pair i is drawn x-first (unit draw 2i, scaled to [lower, upper])
then y (unit draw 2i + 1, scaled to [0, height]); the random state ends
advanced by exactly 2N draws; and the loop's count and final state agree
with this trace. -/
theorem sample_generator_contract {σ : Type} (R : RandomStream σ) (f : ℚ → ℚ)
    (lo hi : ℚ) (s : Int) (N : Nat) (_hN : 0 < N) :
    ((sampleTrace R lo hi (max (f lo) (f hi)) N (R.seed s)).1.length = N) ∧
    ((sampleTrace R lo hi (max (f lo) (f hi)) N (R.seed s)).2 =
      advanceState R (R.seed s) (2 * N)) ∧
    (∀ i, i < N →
      (sampleTrace R lo hi (max (f lo) (f hi)) N (R.seed s)).1.getD i (0, 0) =
        (xSample R lo hi s i, ySample R (max (f lo) (f hi)) s i)) ∧
    (monteCarloLoop R f lo hi (max (f lo) (f hi)) N 0 (R.seed s) =
      ((sampleTrace R lo hi (max (f lo) (f hi)) N (R.seed s)).1.countP
          (fun p => decide (p.2 ≤ f p.1)),
        (sampleTrace R lo hi (max (f lo) (f hi)) N (R.seed s)).2)) := by
  rw [sampleTrace_spec, monteCarloLoop_spec]
  refine ⟨by simp, rfl, ?_, ?_⟩
  · intro i hi'
    have hlen : i < ((List.range N).map (fun i =>
        (lo + (hi - lo) * nthUnit R (R.seed s) (2 * i),
         0 + (max (f lo) (f hi) - 0) * nthUnit R (R.seed s) (2 * i + 1)))).length := by
      simpa using hi'
    rw [List.getD_eq_getElem _ _ hlen]
    simp [xSample, ySample]
  · rw [List.countP_map]
    simp only [Nat.zero_add]
    rfl

/-- Witness for C3 at N = 2, seed 5. -/
theorem sample_generator_contract_app :
    ((sampleTrace constHalf 0 2
        (max (integrand_function 0) (integrand_function 2)) 2
        (constHalf.seed 5)).1.length = 2) ∧
    ((sampleTrace constHalf 0 2
        (max (integrand_function 0) (integrand_function 2)) 2
        (constHalf.seed 5)).2 =
      advanceState constHalf (constHalf.seed 5) (2 * 2)) ∧
    (∀ i, i < 2 →
      (sampleTrace constHalf 0 2
          (max (integrand_function 0) (integrand_function 2)) 2
          (constHalf.seed 5)).1.getD i (0, 0) =
        (xSample constHalf 0 2 5 i,
         ySample constHalf (max (integrand_function 0) (integrand_function 2)) 5 i)) ∧
    (monteCarloLoop constHalf integrand_function 0 2
        (max (integrand_function 0) (integrand_function 2)) 2 0 (constHalf.seed 5) =
      ((sampleTrace constHalf 0 2
          (max (integrand_function 0) (integrand_function 2)) 2
          (constHalf.seed 5)).1.countP (fun p => decide (p.2 ≤ integrand_function p.1)),
        (sampleTrace constHalf 0 2
          (max (integrand_function 0) (integrand_function 2)) 2
          (constHalf.seed 5)).2)) :=
  sample_generator_contract constHalf integrand_function 0 2 5 2 (by norm_num)

/-- C4: a drawn sample is counted by the loop exactly when y ≤ f(x); in
particular a sample with y exactly equal to f(x) is counted (inclusive
boundary). -/
theorem classification_boundary_inclusive {σ : Type} (R : RandomStream σ)
    (f : ℚ → ℚ) (lo hi hmax : ℚ) (st : σ) (c : Nat) :
    ((monteCarloLoop R f lo hi hmax 1 c st).1 =
      (if (uniformDraw R 0 hmax (uniformDraw R lo hi st).2).1 ≤
          f (uniformDraw R lo hi st).1 then c + 1 else c)) ∧
    ((monteCarloLoop R f lo hi hmax 1 c st).1 = c + 1 ↔
      (uniformDraw R 0 hmax (uniformDraw R lo hi st).2).1 ≤
        f (uniformDraw R lo hi st).1) ∧
    ((uniformDraw R 0 hmax (uniformDraw R lo hi st).2).1 =
        f (uniformDraw R lo hi st).1 →
      (monteCarloLoop R f lo hi hmax 1 c st).1 = c + 1) := by
  have hbase : (monteCarloLoop R f lo hi hmax 1 c st).1 =
      (if (uniformDraw R 0 hmax (uniformDraw R lo hi st).2).1 ≤
          f (uniformDraw R lo hi st).1 then c + 1 else c) := by
    simp only [monteCarloLoop]
  refine ⟨hbase, ?_, ?_⟩
  · rw [hbase]
    by_cases hc : (uniformDraw R 0 hmax (uniformDraw R lo hi st).2).1 ≤
        f (uniformDraw R lo hi st).1
    · simp [hc]
    · simp only [if_neg hc]
      constructor
      · intro h
        omega
      · intro h
        exact absurd h hc
  · intro heq
    rw [hbase, if_pos (le_of_eq heq)]

/-- Witness for C4: with f the identity, domain [0, 1], height 1 and unit
draws 1/2, the drawn sample has y = f(x) = 1/2 exactly and is counted. -/
theorem classification_boundary_inclusive_app :
    (monteCarloLoop constHalf (fun t => t) 0 1 1 1 0 ((0 : Int), (0 : Nat))).1 = 0 + 1 :=
  (classification_boundary_inclusive constHalf (fun t => t) 0 1 1
    ((0 : Int), (0 : Nat)) 0).2.2 (by norm_num [uniformDraw, constHalf, idxStream])

/-- C6 counterexample: the claim that no global random-generator state is
left behind is false — a concrete valid call started in global state
(0, 0) ends with the global state mutated (re-seeded and advanced). -/
theorem global_state_left_behind_cx :
    (estimate_integral_monte_carlo constHalf integrand_function 0 2 1 42
        ((0 : Int), (0 : Nat))).2 ≠ ((0 : Int), (0 : Nat)) := by
  decide

/-- C6 amended: the call owns no private stream — it re-seeds the
process-wide generator, so the state it leaves behind is the seeded state
advanced by exactly 2N draws, and neither the estimate nor that final
state depends on the incoming global state. -/
theorem global_state_reseeded_and_mutated {σ : Type} (R : RandomStream σ)
    (f : ℚ → ℚ) (lo hi : ℚ) (N s : Int) (st st' : σ) (hN : 0 < N) (hlt : lo < hi) :
    ((estimate_integral_monte_carlo R f lo hi N s st).2 =
      advanceState R (R.seed s) (2 * N.toNat)) ∧
    (estimate_integral_monte_carlo R f lo hi N s st =
      estimate_integral_monte_carlo R f lo hi N s st') := by
  rw [estimate_ok_eq R f lo hi N s st hN hlt,
    estimate_ok_eq R f lo hi N s st' hN hlt]
  exact ⟨rfl, rfl⟩

/-- Witness for the amended C6 at N = 1, seed 42. -/
theorem global_state_reseeded_and_mutated_app :
    ((estimate_integral_monte_carlo constHalf integrand_function 0 2 1 42
        ((0 : Int), (0 : Nat))).2 =
      advanceState constHalf (constHalf.seed 42) (2 * Int.toNat 1)) ∧
    (estimate_integral_monte_carlo constHalf integrand_function 0 2 1 42
        ((0 : Int), (0 : Nat)) =
      estimate_integral_monte_carlo constHalf integrand_function 0 2 1 42
        ((8 : Int), (3 : Nat))) :=
  global_state_reseeded_and_mutated constHalf integrand_function 0 2 1 42
    ((0 : Int), (0 : Nat)) ((8 : Int), (3 : Nat)) (by norm_num) (by norm_num)

/-- C7: when the quadrature dependency cannot be loaded the function
returns the distinguishable `none` signal (never an exception — the
embedding is a total function) and `main`'s quadrature section completes
with the notice; when it is available the function returns the
(value, error_estimate) pair of the quadrature oracle. -/
theorem quadrature_unavailable_is_signal
    (quad : (ℚ → ℚ) → ℚ → ℚ → ℚ × ℚ) (f : ℚ → ℚ) (lo hi mc : ℚ) :
    (try_quad_integration false quad f lo hi = none ∧
      main_quad_section false quad f lo hi mc = MainQuadReport.scipyMissing) ∧
    (∀ b : Bool, try_quad_integration b quad f lo hi = none ↔ b = false) ∧
    (try_quad_integration true quad f lo hi =
      some ((quad f lo hi).1, (quad f lo hi).2)) := by
  refine ⟨⟨rfl, rfl⟩, ?_, rfl⟩
  intro b
  cases b
  · simp [try_quad_integration]
  · simp [try_quad_integration]

/-- C8: `analytic_integral_x_squared` is the pure closed form
(upper³ − lower³)/3, and (over ℝ) it equals the true integral
∫ x² dx on [lower, upper] — for every pair of bounds, with no failure
mode. -/
theorem analytic_integral_x_squared_correct (lo hi : ℚ) :
    analytic_integral_x_squared lo hi = (hi ^ 3 - lo ^ 3) / 3 ∧
    ((analytic_integral_x_squared lo hi : ℚ) : ℝ) = ∫ x in (lo : ℝ)..(hi : ℝ), x ^ 2 := by
  refine ⟨rfl, ?_⟩
  rw [integral_pow]
  unfold analytic_integral_x_squared
  push_cast
  ring

/-- C10: on every valid call whose rectangle height
max(f(lower), f(upper)) is non-negative, the estimate is a value in
[0, (upper − lower) × height], because the under-curve count lies between
0 and N. -/
theorem estimate_within_rectangle_bounds {σ : Type} (R : RandomStream σ)
    (f : ℚ → ℚ) (lo hi : ℚ) (N s : Int) (st : σ) (hN : 0 < N) (hlt : lo < hi)
    (hh : 0 ≤ max (f lo) (f hi)) :
    ∃ v, (estimate_integral_monte_carlo R f lo hi N s st).1 = Except.ok v ∧
      0 ≤ v ∧ v ≤ (hi - lo) * max (f lo) (f hi) := by
  rw [estimate_ok_eq R f lo hi N s st hN hlt]
  refine ⟨_, rfl, ?_, ?_⟩
  · apply mul_nonneg
    · apply div_nonneg
      · exact_mod_cast Nat.zero_le _
      · exact_mod_cast le_of_lt hN
    · apply mul_nonneg
      · linarith
      · exact hh
  · have hcount : underCurveCount R f lo hi (max (f lo) (f hi)) s N.toNat ≤ N.toNat := by
      unfold underCurveCount
      calc (List.range N.toNat).countP _ ≤ (List.range N.toNat).length :=
            List.countP_le_length _
        _ = N.toNat := List.length_range N.toNat
    have hNq : (0 : ℚ) < (N : ℚ) := by exact_mod_cast hN
    have hratio : (underCurveCount R f lo hi (max (f lo) (f hi)) s N.toNat : ℚ) / (N : ℚ) ≤ 1 := by
      rw [div_le_one hNq]
      have : ((N.toNat : Int) : ℚ) = (N : ℚ) := by
        rw [Int.toNat_of_nonneg (le_of_lt hN)]
      calc (underCurveCount R f lo hi (max (f lo) (f hi)) s N.toNat : ℚ)
          ≤ (N.toNat : ℚ) := by exact_mod_cast hcount
        _ = (N : ℚ) := by exact_mod_cast this
    have harea : (0 : ℚ) ≤ (hi - lo) * max (f lo) (f hi) := by
      apply mul_nonneg
      · linarith
      · exact hh
    calc (underCurveCount R f lo hi (max (f lo) (f hi)) s N.toNat : ℚ) / (N : ℚ) *
          ((hi - lo) * max (f lo) (f hi))
        ≤ 1 * ((hi - lo) * max (f lo) (f hi)) := by
          apply mul_le_mul_of_nonneg_right hratio harea
      _ = (hi - lo) * max (f lo) (f hi) := one_mul _

/-- Witness for C10 at f(x) = x², [0, 2], N = 4, seed 11. -/
theorem estimate_within_rectangle_bounds_app :
    ∃ v, (estimate_integral_monte_carlo constHalf integrand_function 0 2 4 11
        ((0 : Int), (0 : Nat))).1 = Except.ok v ∧
      0 ≤ v ∧ v ≤ (2 - 0) * max (integrand_function 0) (integrand_function 2) :=
  estimate_within_rectangle_bounds constHalf integrand_function 0 2 4 11
    ((0 : Int), (0 : Nat)) (by norm_num) (by norm_num)
    (by norm_num [integrand_function])

/-- Witness for C5: two calls from distinct global states. -/
theorem estimate_deterministic_app :
    (estimate_integral_monte_carlo constHalf integrand_function 0 2 3 42
        ((0 : Int), (0 : Nat))).1 =
      (estimate_integral_monte_carlo constHalf integrand_function 0 2 3 42
        ((99 : Int), (7 : Nat))).1 :=
  estimate_deterministic constHalf integrand_function 0 2 3 42
    ((0 : Int), (0 : Nat)) ((99 : Int), (7 : Nat)) (by norm_num) (by norm_num)
